import Mathlib

/-!
Verification of the real-time audio streaming / playback front-end.

The definitions below are a shallow embedding of the application's core
state and handlers: the playback scheduler, the transcript reconciler,
the session lifecycle callbacks (`connect`, `cleanup`, `onmessage`,
`onerror`, `onclose`) and the cached client factory `getGenAIClient`.
React refs become record fields; timestamps and audio durations are
exact rationals; resource handles (audio contexts, media streams,
processor nodes) become booleans recording whether the handle is
currently held.
-/

namespace GeminiLive

/-- Session connection status (`LiveStatus` in src/types.ts). -/
inductive LiveStatus where
  | DISCONNECTED
  | CONNECTING
  | CONNECTED
  | ERROR
deriving DecidableEq, Repr

/-- Speaker role of a committed log entry (`LogMessage.role`). -/
inductive Role where
  | user
  | system
  | model
deriving DecidableEq, Repr

/-- Roles a streaming transcript can carry (the `'user' | 'model'` union). -/
inductive URole where
  | user
  | model
deriving DecidableEq, Repr

/-- Widen a transcript role into a log role. -/
def URole.toRole : URole → Role
  | .user => Role.user
  | .model => Role.model

/-- One committed log entry: role and full text.  The random `id` and the
wall-clock `timestamp` are omitted: no verified property depends on them. -/
structure LogEntry where
  role : Role
  text : String
deriving DecidableEq, Repr

/-- The pending (still streaming) utterance held in `currentTranscriptRef`. -/
structure PendingTr where
  role : URole
  text : String
deriving DecidableEq, Repr

/-- One scheduled in-flight audio segment: the absolute start time the
scheduler computed for it and its duration, in seconds. -/
structure Segment where
  start : ℚ
  dur : ℚ
deriving DecidableEq, Repr

/-- The mutable application state: React state plus every ref that the
session lifecycle touches.  Resource refs (`audioContextRef`,
`inputAudioContextRef`, `audioStreamRef`, `videoStreamRef`,
`audioSourceRef`, `processorRef`, `frameIntervalRef`, `sessionRef`)
are booleans: `true` means the ref currently holds a live handle. -/
structure AppState where
  status : LiveStatus
  logs : List LogEntry
  streamingLog : Option PendingTr
  apiKey : String
  showSettings : Bool
  inputCtx : Bool
  outputCtx : Bool
  micStream : Bool
  videoStream : Bool
  audioSource : Bool
  processor : Bool
  frameInterval : Bool
  sessionOpen : Bool
  nextStartTime : ℚ
  audioSources : List Segment
  pending : Option PendingTr
deriving DecidableEq, Repr

/-- A disconnected state with nothing acquired: the component's initial
state. -/
def initState : AppState :=
  { status := LiveStatus.DISCONNECTED
    logs := []
    streamingLog := none
    apiKey := ""
    showSettings := false
    inputCtx := false
    outputCtx := false
    micStream := false
    videoStream := false
    audioSource := false
    processor := false
    frameInterval := false
    sessionOpen := false
    nextStartTime := 0
    audioSources := []
    pending := none }

/-- `addLog`: append a log entry. -/
def addLog (r : Role) (t : String) (s : AppState) : AppState :=
  { s with logs := s.logs ++ [⟨r, t⟩] }

/-- Modelled from the spec: the decode utilities (`decodeBase64` and
`pcmToAudioBuffer` in `utils/audioUtils.ts`) are not among the sources
here.  Per spec §4.1, decoding fails with a FormatError when the byte
length is not a multiple of the 16-bit sample width, and otherwise the
resulting buffer's duration is sampleCount / sampleRate (playback side:
24000 Hz).  The payload is the received byte sequence. -/
def decodePcmDuration (bytes : List Nat) : Except String ℚ :=
  if bytes.length % 2 = 0 then
    Except.ok (((bytes.length / 2 : ℕ) : ℚ) / 24000)
  else
    Except.error "FormatError"

/-- One inbound `LiveServerMessage`, reduced to the fields `onmessage`
reads: the first part's inline audio payload (as bytes; an absent or
empty `data` string is `none`), the two transcription fragments, and the
`turnComplete` / `interrupted` flags. -/
structure ServerMessage where
  audioData : Option (List Nat)
  inputTranscription : Option String
  outputTranscription : Option String
  turnComplete : Bool
  interrupted : Bool
deriving DecidableEq, Repr

/-- Result of running the message handler: the state when the handler
returned (or when the exception escaped), and whether it threw. -/
structure HandlerResult where
  state : AppState
  thrown : Bool
deriving DecidableEq, Repr

/-- Shared shape of the two transcription blocks of `onmessage`: if the
fragment is present and non-empty (the JS guard `if (inputTr)` rejects
the empty string), first commit a pending utterance of the other role,
then create or extend the pending utterance of role `r`. -/
def handleFragment (r : URole) (txt : Option String) (s : AppState) : AppState :=
  match txt with
  | none => s
  | some t =>
    if t = "" then s
    else
      let s1 :=
        match s.pending with
        | some p =>
          if p.role ≠ r then
            { s with logs := s.logs ++ [(⟨p.role.toRole, p.text⟩ : LogEntry)], pending := none }
          else s
        | none => s
      let cur := s1.pending.getD ⟨r, ""⟩
      let cur' : PendingTr := ⟨cur.role, cur.text ++ t⟩
      { s1 with pending := some cur', streamingLog := some cur' }

/-- Turn-completion block of `onmessage`: commit the pending utterance,
if any, and clear it. -/
def handleTurnComplete (s : AppState) : AppState :=
  match s.pending with
  | some p =>
    { s with logs := s.logs ++ [(⟨p.role.toRole, p.text⟩ : LogEntry)]
             pending := none
             streamingLog := none }
  | none => s

/-- Interruption block of `onmessage`: log the system notice, stop and
clear every in-flight source, reset the cursor, and commit a pending
model utterance with the " [Interrupted]" marker. -/
def handleInterrupted (s : AppState) : AppState :=
  let s1 := { s with logs := s.logs ++ [(⟨Role.system, "Interrupted by user."⟩ : LogEntry)]
                     audioSources := []
                     nextStartTime := 0 }
  match s1.pending with
  | some p =>
    if p.role = URole.model then
      { s1 with logs := s1.logs ++ [(⟨Role.model, p.text ++ " [Interrupted]"⟩ : LogEntry)]
                pending := none
                streamingLog := none }
    else s1
  | none => s1

/-- The transcription / turn / interruption tail of `onmessage`,
run in source order after the audio block. -/
def onmessageRest (msg : ServerMessage) (s : AppState) : AppState :=
  let s2 := handleFragment URole.user msg.inputTranscription s
  let s3 := handleFragment URole.model msg.outputTranscription s2
  let s4 := if msg.turnComplete then handleTurnComplete s3 else s3
  if msg.interrupted then handleInterrupted s4 else s4

/-- The `onmessage` callback.  Audio first: when a non-empty payload
arrived and the output audio context exists, decode it, move the cursor
to `max cursor now` (`now` is `ctx.currentTime` at arrival), schedule the
segment there, advance the cursor by its duration and register it in the
in-flight set.  A decode failure throws before any mutation, so the
handler aborts with the state untouched and the rest of the message
unprocessed.  Then the transcription blocks, turn completion and
interruption run in order. -/
def onmessage (msg : ServerMessage) (now : ℚ) (s : AppState) : HandlerResult :=
  match msg.audioData with
  | some bytes =>
    if bytes ≠ [] ∧ s.outputCtx = true then
      match decodePcmDuration bytes with
      | .error _ => ⟨s, true⟩
      | .ok dur =>
        let start := max s.nextStartTime now
        ⟨onmessageRest msg
          { s with nextStartTime := start + dur
                   audioSources := s.audioSources ++ [⟨start, dur⟩] }, false⟩
    else ⟨onmessageRest msg s, false⟩
  | none => ⟨onmessageRest msg s, false⟩

/-- Which release actions one `cleanup` call actually performed. -/
structure CleanupEffects where
  sourcesStopped : Nat
  processorDisconnected : Bool
  audioSourceDisconnected : Bool
  outputCtxClosed : Bool
  inputCtxClosed : Bool
  audioTracksStopped : Bool
  videoTracksStopped : Bool
  frameIntervalCleared : Bool
deriving DecidableEq, Repr

/-- The effects record of a call that released nothing. -/
def CleanupEffects.nothing : CleanupEffects :=
  ⟨0, false, false, false, false, false, false, false⟩

/-- The `cleanup` callback: stop every in-flight source and clear the
set; disconnect and null the processor and the input source node; close
and null both audio contexts; stop the audio and video stream tracks and
null the refs; clear the frame interval; reset the cursor, the session
ref, the pending transcript and the streaming log; set the status to
Disconnected and log "Session ended".  Each guarded release runs only
when its ref is non-null; the returned effects record which ran. -/
def cleanup (s : AppState) : AppState × CleanupEffects :=
  ({ s with
      audioSources := []
      processor := false
      audioSource := false
      outputCtx := false
      inputCtx := false
      micStream := false
      videoStream := false
      frameInterval := false
      nextStartTime := 0
      sessionOpen := false
      pending := none
      streamingLog := none
      status := LiveStatus.DISCONNECTED
      logs := s.logs ++ [⟨Role.system, "Session ended"⟩] },
   { sourcesStopped := s.audioSources.length
     processorDisconnected := s.processor
     audioSourceDisconnected := s.audioSource
     outputCtxClosed := s.outputCtx
     inputCtxClosed := s.inputCtx
     audioTracksStopped := s.micStream
     videoTracksStopped := s.videoStream
     frameIntervalCleared := s.frameInterval })

/-- The `onerror` callback: log the notice and set status Error.
Nothing else is touched. -/
def onerror (s : AppState) : AppState :=
  { s with logs := s.logs ++ [⟨Role.system, "Error occurred. Check console."⟩]
           status := LiveStatus.ERROR }

/-- The `onclose` callback: log the notice, set status Disconnected and
drop the pending transcript and streaming log.  No resource is released. -/
def onclose (s : AppState) : AppState :=
  { s with logs := s.logs ++ [⟨Role.system, "Connection closed."⟩]
           status := LiveStatus.DISCONNECTED
           pending := none
           streamingLog := none }

/-- JS `String.prototype.trim`: strip leading and trailing whitespace. -/
def trimString (t : String) : String :=
  ⟨((t.data.dropWhile Char.isWhitespace).reverse.dropWhile Char.isWhitespace).reverse⟩

/-- What `connect` acquired or attempted before returning. -/
structure ConnectEffects where
  inputCtxCreated : Bool
  outputCtxCreated : Bool
  micRequested : Bool
  networkAttempted : Bool
  keyUsed : Option String
deriving DecidableEq, Repr

/-- The effects record of a `connect` call that did nothing. -/
def ConnectEffects.nothing : ConnectEffects :=
  ⟨false, false, false, false, none⟩

/-- The `connect` function, audio-only path (the optional camera / screen
branch is not modelled: `videoMode` stays `'none'` and no verified claim
depends on it).  The trimmed credential is checked first: when empty the
call logs the configuration notice, opens the settings panel and returns
before anything is created.  Otherwise status becomes Connecting, both
audio contexts are created, and the microphone is requested; `micOk`
abstracts whether `getUserMedia` resolves.  On success the trimmed key
is handed to `getGenAIClient` and the session connect is issued; on
rejection the outer catch logs the failure and runs `cleanup`. -/
def connect (micOk : Bool) (s : AppState) : AppState × ConnectEffects :=
  let cleanKey := trimString s.apiKey
  if cleanKey = "" then
    ({ s with logs := s.logs ++
        [⟨Role.system, "Credentials missing. Please configure in settings."⟩]
              showSettings := true },
     ConnectEffects.nothing)
  else
    let s1 := { s with status := LiveStatus.CONNECTING
                       logs := s.logs ++ [⟨Role.system, "Initializing devices..."⟩]
                       inputCtx := true
                       outputCtx := true }
    if micOk then
      let s2 := { s1 with micStream := true
                          logs := s1.logs ++ [⟨Role.system, "Connecting to Gemini Live..."⟩]
                          sessionOpen := true }
      (s2, ⟨true, true, true, true, some cleanKey⟩)
    else
      ((cleanup (addLog Role.system "Connection failed: mic access" s1)).1,
       ⟨true, true, true, false, none⟩)

/-- A constructed client instance, distinguished by a creation counter so
that "the identical instance" is expressible. -/
structure GenClient where
  key : String
  id : Nat
deriving DecidableEq, Repr

/-- The module-level mutable state of `services/geminiService.ts`:
`aiClient`, `currentApiKey`, and a counter standing for object identity
of the next `new GoogleGenAI(...)`. -/
structure ClientCache where
  aiClient : Option GenClient
  currentApiKey : Option String
  nextId : Nat
deriving DecidableEq, Repr

/-- JS truthiness of an optional string: present and non-empty. -/
def jsTruthy : Option String → Bool
  | some t => t ≠ ""
  | none => false

/-- The error message thrown when no credential is available. -/
def credErrorMsg : String :=
  "Credentials are not set. Please configure API Key or Token in settings."

/-- `getGenAIClient`: fall back from the (possibly absent or empty)
argument to the environment key, throw when neither is truthy, construct
and cache a fresh client when none is cached or the key changed, and
otherwise return the cached instance.  The cache is returned unchanged
on throw. -/
def getGenAIClient (apiKey envKey : Option String) (c : ClientCache) :
    Except String GenClient × ClientCache :=
  let keyToUse := if jsTruthy apiKey then apiKey else envKey
  match keyToUse, jsTruthy keyToUse with
  | some k, true =>
    match c.aiClient with
    | some cl =>
      if c.currentApiKey ≠ some k then
        let fresh : GenClient := ⟨k, c.nextId⟩
        (Except.ok fresh, ⟨some fresh, some k, c.nextId + 1⟩)
      else
        (Except.ok cl, c)
    | none =>
      let fresh : GenClient := ⟨k, c.nextId⟩
      (Except.ok fresh, ⟨some fresh, some k, c.nextId + 1⟩)
  | _, _ =>
    (Except.error credErrorMsg, c)

/-- The conversation transcript carried by a log: the committed user and
model entries, in order ('system' notices are UI chrome, not transcript). -/
def transcriptOf (logs : List LogEntry) : List (URole × String) :=
  logs.filterMap fun e =>
    match e.role with
    | Role.user => some (URole.user, e.text)
    | Role.model => some (URole.model, e.text)
    | Role.system => none

/-- A message carrying only an audio payload. -/
def audioMsg (bytes : List Nat) : ServerMessage :=
  ⟨some bytes, none, none, false, false⟩

/-- Duration of a decodable payload: sampleCount / 24000. -/
def durOf (bytes : List Nat) : ℚ :=
  ((bytes.length / 2 : ℕ) : ℚ) / 24000

/-- Feed a sequence of received audio segments through `onmessage`; each
event is the payload together with the output clock at its arrival. -/
def runAudio (evs : List (List Nat × ℚ)) (s : AppState) : AppState :=
  evs.foldl (fun st ev => (onmessage (audioMsg ev.1) ev.2 st).state) s

/-- Reference recurrence for the playback schedule: from cursor `c`, each
arrival `(t, d)` (clock and duration) starts at `max c t` and moves the
cursor to `max c t + d`. -/
def schedSegs (c : ℚ) : List (ℚ × ℚ) → List Segment
  | [] => []
  | (t, d) :: rest => ⟨max c t, d⟩ :: schedSegs (max c t + d) rest

/-- Final cursor of the reference recurrence. -/
def schedCursor (c : ℚ) : List (ℚ × ℚ) → ℚ
  | [] => c
  | (t, d) :: rest => schedCursor (max c t + d) rest

/-- One transcript-level event: a tagged fragment, a turn-completion
signal, or an interruption signal. -/
inductive TEvent where
  | frag : URole → String → TEvent
  | turnComplete : TEvent
  | interrupted : TEvent
deriving DecidableEq, Repr

/-- The inbound message delivering one transcript-level event. -/
def TEvent.toMsg : TEvent → ServerMessage
  | .frag .user t => ⟨none, some t, none, false, false⟩
  | .frag .model t => ⟨none, none, some t, false, false⟩
  | .turnComplete => ⟨none, none, none, true, false⟩
  | .interrupted => ⟨none, none, none, false, true⟩

/-- Feed a sequence of transcript-level events through `onmessage`
(such messages carry no audio, so the clock argument is irrelevant). -/
def runEvents (es : List TEvent) (s : AppState) : AppState :=
  es.foldl (fun st e => (onmessage e.toMsg 0 st).state) s

/-- One committed group of fragments: the role, the fragments in arrival
order, and whether an interruption forced the commit.  Reference
attribution for the transcript-reconciliation property. -/
structure Group where
  role : URole
  frags : List String
  intr : Bool
deriving DecidableEq, Repr

/-- Reference attribution state: committed groups and the group still
accumulating. -/
structure AttrState where
  groups : List Group
  pending : Option (URole × List String)
deriving DecidableEq, Repr

/-- Reference attribution transitions, mirroring spec §4.5: a fragment
extends a same-role pending group, commits a different-role one, or opens
a group; turn completion commits the pending group; interruption commits
a pending model group (marked) and leaves anything else alone.  Empty
fragments are skipped, as the handler's truthiness guard does. -/
def attrStep (a : AttrState) : TEvent → AttrState
  | .frag r t =>
    if t = "" then a
    else
      match a.pending with
      | some (r', fs) =>
        if r' = r then { a with pending := some (r, fs ++ [t]) }
        else { groups := a.groups ++ [⟨r', fs, false⟩], pending := some (r, [t]) }
      | none => { a with pending := some (r, [t]) }
  | .turnComplete =>
    match a.pending with
    | some (r, fs) => { groups := a.groups ++ [⟨r, fs, false⟩], pending := none }
    | none => a
  | .interrupted =>
    match a.pending with
    | some (URole.model, fs) =>
      { groups := a.groups ++ [⟨URole.model, fs, true⟩], pending := none }
    | _ => a

/-- Run the reference attribution over an event sequence. -/
def runAttr (es : List TEvent) (a : AttrState) : AttrState :=
  es.foldl attrStep a

/-- Concatenation of a fragment list. -/
def joinFrags : List String → String
  | [] => ""
  | t :: ts => t ++ joinFrags ts

/-- The log entry a committed group renders to. -/
def Group.render (g : Group) : URole × String :=
  (g.role, joinFrags g.frags ++ if g.intr then " [Interrupted]" else "")

/-- The fragments of a group, each tagged with the group's role. -/
def Group.tagged (g : Group) : List (URole × String) :=
  g.frags.map fun t => (g.role, t)

/-- The non-empty fragments of an event sequence, tagged by role, in
arrival order. -/
def fragsOf (es : List TEvent) : List (URole × String) :=
  es.filterMap fun e =>
    match e with
    | .frag r t => if t = "" then none else some (r, t)
    | _ => none

/-- Every fragment an attribution state accounts for: those in committed
groups followed by those still pending. -/
def attrFrags (a : AttrState) : List (URole × String) :=
  (a.groups.flatMap Group.tagged) ++
    (match a.pending with
     | some (r, fs) => fs.map fun t => (r, t)
     | none => [])

/-! ## Helper lemmas -/

theorem transcriptOf_append (l1 l2 : List LogEntry) :
    transcriptOf (l1 ++ l2) = transcriptOf l1 ++ transcriptOf l2 := by
  simp [transcriptOf, List.filterMap_append]

theorem transcriptOf_system (t : String) :
    transcriptOf [⟨Role.system, t⟩] = [] := rfl

theorem transcriptOf_toRole (r : URole) (t : String) :
    transcriptOf [⟨r.toRole, t⟩] = [(r, t)] := by
  cases r <;> rfl

/-- A successfully decoded audio payload schedules one segment at
`max cursor now` and advances the cursor by its duration. -/
theorem onmessage_audio_ok (b : List Nat) (t : ℚ) (s : AppState)
    (hb : b ≠ []) (he : b.length % 2 = 0) (hctx : s.outputCtx = true) :
    onmessage (audioMsg b) t s =
      ⟨{ s with nextStartTime := max s.nextStartTime t + durOf b
                audioSources := s.audioSources ++ [⟨max s.nextStartTime t, durOf b⟩] },
        false⟩ := by
  simp [onmessage, audioMsg, decodePcmDuration, he, hb, hctx, onmessageRest,
    handleFragment, durOf]

/-- A run of audio-only messages with decodable payloads produces exactly
the reference schedule appended to the existing in-flight list. -/
theorem runAudio_spec (evs : List (List Nat × ℚ)) :
    ∀ s : AppState,
      (∀ ev ∈ evs, ev.1 ≠ [] ∧ ev.1.length % 2 = 0) → s.outputCtx = true →
      (runAudio evs s).audioSources
          = s.audioSources ++ schedSegs s.nextStartTime (evs.map fun ev => (ev.2, durOf ev.1)) ∧
      (runAudio evs s).nextStartTime
          = schedCursor s.nextStartTime (evs.map fun ev => (ev.2, durOf ev.1)) := by
  induction evs with
  | nil => intro s _ _; simp [runAudio, schedSegs, schedCursor]
  | cons ev evs ih =>
    intro s h hctx
    obtain ⟨b, t⟩ := ev
    have hb := h (b, t) (List.mem_cons_self _ _)
    have hrun : runAudio ((b, t) :: evs) s
        = runAudio evs (onmessage (audioMsg b) t s).state := rfl
    rw [hrun, onmessage_audio_ok b t s hb.1 hb.2 hctx]
    dsimp only
    have ih' := ih
      { s with nextStartTime := max s.nextStartTime t + durOf b
               audioSources := s.audioSources ++ [⟨max s.nextStartTime t, durOf b⟩] }
      (fun e he => h e (List.mem_cons_of_mem _ he)) hctx
    rw [ih'.1, ih'.2]
    simp [schedSegs, schedCursor]

theorem schedSegs_length (l : List (ℚ × ℚ)) : ∀ c, (schedSegs c l).length = l.length := by
  induction l with
  | nil => intro c; rfl
  | cons p rest ih => intro c; obtain ⟨t, d⟩ := p; simp [schedSegs, ih]

theorem schedSegs_getD_dur (l : List (ℚ × ℚ)) :
    ∀ c k, k < l.length →
      ((schedSegs c l).getD k ⟨0, 0⟩).dur = (l.getD k ((0 : ℚ), (0 : ℚ))).2 := by
  induction l with
  | nil => intro c k hk; simp at hk
  | cons p rest ih =>
    intro c k hk
    obtain ⟨t, d⟩ := p
    cases k with
    | zero => rfl
    | succ k => simpa [schedSegs] using ih (max c t + d) k (by simpa using hk)

theorem schedSegs_getD_start_zero (l : List (ℚ × ℚ)) (c : ℚ) (h : 0 < l.length) :
    ((schedSegs c l).getD 0 ⟨0, 0⟩).start = max c (l.getD 0 ((0 : ℚ), (0 : ℚ))).1 := by
  cases l with
  | nil => simp at h
  | cons p rest => obtain ⟨t, d⟩ := p; rfl

theorem schedSegs_getD_start_succ (l : List (ℚ × ℚ)) :
    ∀ c k, k + 1 < l.length →
      ((schedSegs c l).getD (k + 1) ⟨0, 0⟩).start
        = max (((schedSegs c l).getD k ⟨0, 0⟩).start + ((schedSegs c l).getD k ⟨0, 0⟩).dur)
            (l.getD (k + 1) ((0 : ℚ), (0 : ℚ))).1 := by
  induction l with
  | nil => intro c k hk; simp at hk
  | cons p rest ih =>
    intro c k hk
    obtain ⟨t, d⟩ := p
    cases k with
    | zero =>
      have hr : 0 < rest.length := by simpa using hk
      simpa [schedSegs] using schedSegs_getD_start_zero rest (max c t + d) hr
    | succ k =>
      simpa [schedSegs] using ih (max c t + d) k (by simpa using hk)

theorem schedCursor_eq_last (l : List (ℚ × ℚ)) :
    ∀ c, schedCursor c l = ((schedSegs c l).getLast?).elim c (fun sg => sg.start + sg.dur) := by
  induction l with
  | nil => intro c; rfl
  | cons p rest ih =>
    intro c
    obtain ⟨t, d⟩ := p
    cases rest with
    | nil => simp [schedCursor, schedSegs]
    | cons q tl =>
      obtain ⟨t', d'⟩ := q
      have : schedSegs c ((t, d) :: (t', d') :: tl)
          = ⟨max c t, d⟩ :: ⟨max (max c t + d) t', d'⟩
              :: schedSegs (max (max c t + d) t' + d') tl := rfl
      rw [this]
      simpa [schedCursor, schedSegs, List.getLast?_cons_cons] using ih (max c t + d)

theorem schedSegs_start_ge (l : List (ℚ × ℚ)) :
    ∀ c, (∀ p ∈ l, 0 ≤ p.2) → ∀ sg ∈ schedSegs c l, c ≤ sg.start := by
  induction l with
  | nil => intro c _ sg hsg; simp [schedSegs] at hsg
  | cons p rest ih =>
    intro c hd sg hsg
    obtain ⟨t, d⟩ := p
    rcases (by simpa [schedSegs] using hsg :
        sg = (⟨max c t, d⟩ : Segment) ∨ sg ∈ schedSegs (max c t + d) rest) with h | h
    · rw [h]; exact le_max_left _ _
    · have h0 : (0 : ℚ) ≤ d := hd (t, d) (List.mem_cons_self _ _)
      have := ih (max c t + d) (fun q hq => hd q (List.mem_cons_of_mem _ hq)) sg h
      calc c ≤ max c t := le_max_left _ _
        _ ≤ max c t + d := by linarith
        _ ≤ sg.start := this

theorem schedSegs_pairwise (l : List (ℚ × ℚ)) :
    ∀ c, (∀ p ∈ l, 0 ≤ p.2) →
      List.Pairwise (fun a b : Segment => a.start + a.dur ≤ b.start) (schedSegs c l) := by
  induction l with
  | nil => intro c _; simp [schedSegs]
  | cons p rest ih =>
    intro c hd
    obtain ⟨t, d⟩ := p
    refine List.Pairwise.cons ?_ (ih (max c t + d) (fun q hq => hd q (List.mem_cons_of_mem _ hq)))
    intro sg hsg
    exact schedSegs_start_ge rest (max c t + d)
      (fun q hq => hd q (List.mem_cons_of_mem _ hq)) sg hsg

theorem mapped_getD (evs : List (List Nat × ℚ)) (k : ℕ) :
    (evs.map fun ev => (ev.2, durOf ev.1)).getD k ((0 : ℚ), (0 : ℚ))
      = ((evs.getD k ([], 0)).2, durOf (evs.getD k ([], 0)).1) := by
  have h := @List.getD_map _ _ evs (([] : List Nat), (0 : ℚ)) k (fun ev => (ev.2, durOf ev.1))
  simpa [durOf] using h

/-! ## Claim theorems -/

/-- C1: for every sequence of received audio segments, the scheduler
assigns segment k the start time `max(outputClockAtArrival_k,
start_{k-1} + d_{k-1})` (for k = 1, `max(outputClockAtArrival_1, cursor)`),
each segment keeps its decoded duration, the cursor ends at the last
segment's start plus its duration, and the scheduled intervals of any two
segments never overlap (each ends no later than the next begins). -/
theorem playback_scheduling_correct (evs : List (List Nat × ℚ)) (s : AppState)
    (hdec : ∀ ev ∈ evs, ev.1 ≠ [] ∧ ev.1.length % 2 = 0)
    (hctx : s.outputCtx = true) (hempty : s.audioSources = []) :
    (runAudio evs s).audioSources.length = evs.length ∧
    (0 < evs.length →
      ((runAudio evs s).audioSources.getD 0 ⟨0, 0⟩).start
        = max s.nextStartTime (evs.getD 0 ([], 0)).2) ∧
    (∀ k, k + 1 < evs.length →
      ((runAudio evs s).audioSources.getD (k + 1) ⟨0, 0⟩).start
        = max (((runAudio evs s).audioSources.getD k ⟨0, 0⟩).start
                 + ((runAudio evs s).audioSources.getD k ⟨0, 0⟩).dur)
              (evs.getD (k + 1) ([], 0)).2) ∧
    (∀ k, k < evs.length →
      ((runAudio evs s).audioSources.getD k ⟨0, 0⟩).dur = durOf (evs.getD k ([], 0)).1) ∧
    (runAudio evs s).nextStartTime
      = ((runAudio evs s).audioSources.getLast?).elim s.nextStartTime
          (fun sg => sg.start + sg.dur) ∧
    List.Pairwise (fun a b : Segment => a.start + a.dur ≤ b.start)
      (runAudio evs s).audioSources := by
  obtain ⟨hsrc, hcur⟩ := runAudio_spec evs s hdec hctx
  rw [hempty, List.nil_append] at hsrc
  have hlen : (evs.map fun ev => (ev.2, durOf ev.1)).length = evs.length := by
    simp
  have hdur : ∀ p ∈ evs.map fun ev => (ev.2, durOf ev.1), (0 : ℚ) ≤ p.2 := by
    intro p hp
    obtain ⟨ev, _, rfl⟩ := List.mem_map.mp hp
    have : (0 : ℚ) ≤ ((ev.1.length / 2 : ℕ) : ℚ) / 24000 := by positivity
    simpa [durOf] using this
  refine ⟨?_, ?_, ?_, ?_, ?_, ?_⟩
  · rw [hsrc, schedSegs_length, hlen]
  · intro h0
    rw [hsrc, schedSegs_getD_start_zero _ _ (by rw [hlen]; exact h0), mapped_getD]
  · intro k hk
    rw [hsrc, schedSegs_getD_start_succ _ _ k (by rw [hlen]; exact hk), mapped_getD]
  · intro k hk
    rw [hsrc, schedSegs_getD_dur _ _ k (by rw [hlen]; exact hk), mapped_getD]
  · rw [hsrc, hcur, schedCursor_eq_last]
  · rw [hsrc]
    exact schedSegs_pairwise _ _ hdur

/-- Witness for C1 at a concrete two-segment run. -/
theorem playback_scheduling_correct_witness :
    (runAudio [([0, 0, 0, 0], 0), ([0, 0], 1)]
        { initState with outputCtx := true }).audioSources.length = 2 ∧
    List.Pairwise (fun a b : Segment => a.start + a.dur ≤ b.start)
      (runAudio [([0, 0, 0, 0], 0), ([0, 0], 1)]
        { initState with outputCtx := true }).audioSources :=
  ⟨(playback_scheduling_correct _ _ (by decide) rfl rfl).1,
   (playback_scheduling_correct [([0, 0, 0, 0], 0), ([0, 0], 1)]
      { initState with outputCtx := true } (by decide) rfl rfl).2.2.2.2.2⟩

/-- Every `onmessage` call either throws (leaving the erroring state) or
returns the transcript tail applied to some post-audio state. -/
theorem onmessage_cases (msg : ServerMessage) (now : ℚ) (s : AppState) :
    onmessage msg now s = ⟨s, true⟩ ∨
      ∃ s', onmessage msg now s = ⟨onmessageRest msg s', false⟩ := by
  unfold onmessage
  split
  · split
    · split
      · exact Or.inl rfl
      · exact Or.inr ⟨_, rfl⟩
    · exact Or.inr ⟨s, rfl⟩
  · exact Or.inr ⟨s, rfl⟩

/-- The interruption block always leaves the in-flight set empty and the
cursor at zero. -/
theorem handleInterrupted_clears (s : AppState) :
    (handleInterrupted s).audioSources = [] ∧ (handleInterrupted s).nextStartTime = 0 := by
  cases hp : s.pending with
  | none => simp [handleInterrupted, hp]
  | some p =>
    by_cases hr : p.role = URole.model <;> simp [handleInterrupted, hp, hr]

theorem onmessageRest_interrupted (msg : ServerMessage) (s : AppState)
    (h : msg.interrupted = true) :
    (onmessageRest msg s).audioSources = [] ∧ (onmessageRest msg s).nextStartTime = 0 := by
  unfold onmessageRest
  rw [h]
  simp only [if_true]
  exact handleInterrupted_clears _

/-- C2: after processing (to completion) any message carrying the
interruption flag, the in-flight segment set is empty and the cursor is
zero, for every prior state. -/
theorem interruption_clears_playback (msg : ServerMessage) (now : ℚ) (s : AppState)
    (hok : (onmessage msg now s).thrown = false) (hint : msg.interrupted = true) :
    (onmessage msg now s).state.audioSources = [] ∧
    (onmessage msg now s).state.nextStartTime = 0 := by
  rcases onmessage_cases msg now s with h | ⟨s', h⟩
  · rw [h] at hok; cases hok
  · rw [h]; exact onmessageRest_interrupted msg s' hint

/-- Witness for C2 at a state with two in-flight segments. -/
theorem interruption_clears_playback_witness :
    (onmessage ⟨none, none, none, false, true⟩ 0
        { initState with audioSources := [⟨0, 1⟩, ⟨1, 2⟩], nextStartTime := 3 }).thrown
      = false ∧
    (onmessage ⟨none, none, none, false, true⟩ 0
        { initState with audioSources := [⟨0, 1⟩, ⟨1, 2⟩], nextStartTime := 3 }).state.audioSources
      = [] ∧
    (onmessage ⟨none, none, none, false, true⟩ 0
        { initState with audioSources := [⟨0, 1⟩, ⟨1, 2⟩], nextStartTime := 3 }).state.nextStartTime
      = 0 :=
  ⟨rfl,
   (interruption_clears_playback ⟨none, none, none, false, true⟩ 0
      { initState with audioSources := [⟨0, 1⟩, ⟨1, 2⟩], nextStartTime := 3 } rfl rfl).1,
   (interruption_clears_playback ⟨none, none, none, false, true⟩ 0
      { initState with audioSources := [⟨0, 1⟩, ⟨1, 2⟩], nextStartTime := 3 } rfl rfl).2⟩

/-- C4: a pure interruption signal always clears playback (empty in-flight
set, cursor zero); when a model utterance is pending it is committed to
the transcript with the " [Interrupted]" marker and the pending utterance
is cleared, and when the reconciler is idle or a user utterance is pending
the conversation transcript and the pending utterance are untouched (only
the system notice is logged). -/
theorem interruption_transcript_cases (s : AppState) (now : ℚ) :
    (onmessage ⟨none, none, none, false, true⟩ now s).state.audioSources = [] ∧
    (onmessage ⟨none, none, none, false, true⟩ now s).state.nextStartTime = 0 ∧
    (match s.pending with
     | some p =>
       if p.role = URole.model then
         transcriptOf (onmessage ⟨none, none, none, false, true⟩ now s).state.logs
             = transcriptOf s.logs ++ [(URole.model, p.text ++ " [Interrupted]")] ∧
           (onmessage ⟨none, none, none, false, true⟩ now s).state.pending = none
       else
         transcriptOf (onmessage ⟨none, none, none, false, true⟩ now s).state.logs
             = transcriptOf s.logs ∧
           (onmessage ⟨none, none, none, false, true⟩ now s).state.pending = s.pending
     | none =>
       transcriptOf (onmessage ⟨none, none, none, false, true⟩ now s).state.logs
           = transcriptOf s.logs ∧
         (onmessage ⟨none, none, none, false, true⟩ now s).state.pending = s.pending) := by
  have hst : (onmessage ⟨none, none, none, false, true⟩ now s).state = handleInterrupted s := rfl
  rw [hst]
  refine ⟨(handleInterrupted_clears s).1, (handleInterrupted_clears s).2, ?_⟩
  cases hp : s.pending with
  | none =>
    simp [handleInterrupted, hp, transcriptOf_append, transcriptOf_system]
  | some p =>
    by_cases hr : p.role = URole.model
    · simp only [hr, if_true]
      constructor
      · simp [handleInterrupted, hp, hr, transcriptOf_append, transcriptOf_system]
        exact (transcriptOf_toRole URole.model (p.text ++ " [Interrupted]")).symm ▸ rfl
      · simp [handleInterrupted, hp, hr]
    · simp [handleInterrupted, hp, hr, transcriptOf_append, transcriptOf_system]

/-! ## Transcript reconciliation -/

theorem joinFrags_append (l1 l2 : List String) :
    joinFrags (l1 ++ l2) = joinFrags l1 ++ joinFrags l2 := by
  induction l1 with
  | nil => simp [joinFrags, String.empty_append]
  | cons t ts ih => simp [joinFrags, ih, String.append_assoc]

theorem joinFrags_singleton (t : String) : joinFrags [t] = t := by
  simp [joinFrags, String.append_empty]

/-- The code state and the reference attribution state agree: the
transcript renders the committed groups, and the pending utterance is
the pending group's concatenation. -/
def correspond (s : AppState) (a : AttrState) : Prop :=
  transcriptOf s.logs = a.groups.map Group.render ∧
  s.pending = a.pending.map fun p => ⟨p.1, joinFrags p.2⟩

theorem handleFragment_empty (r : URole) (s : AppState) :
    handleFragment r (some "") s = s := by
  simp [handleFragment]

theorem handleFragment_none_pending (r : URole) (t : String) (s : AppState)
    (ht : t ≠ "") (hsp : s.pending = none) :
    handleFragment r (some t) s
      = { s with pending := some ⟨r, t⟩, streamingLog := some ⟨r, t⟩ } := by
  simp [handleFragment, ht, hsp, String.empty_append]

theorem handleFragment_same_role (r : URole) (t : String) (s : AppState) (p : PendingTr)
    (ht : t ≠ "") (hsp : s.pending = some p) (hr : p.role = r) :
    handleFragment r (some t) s
      = { s with pending := some ⟨p.role, p.text ++ t⟩
                 streamingLog := some ⟨p.role, p.text ++ t⟩ } := by
  simp [handleFragment, ht, hsp, hr]

theorem handleFragment_other_role (r : URole) (t : String) (s : AppState) (p : PendingTr)
    (ht : t ≠ "") (hsp : s.pending = some p) (hr : p.role ≠ r) :
    handleFragment r (some t) s
      = { s with logs := s.logs ++ [(⟨p.role.toRole, p.text⟩ : LogEntry)]
                 pending := some ⟨r, t⟩
                 streamingLog := some ⟨r, t⟩ } := by
  simp [handleFragment, ht, hsp, hr, String.empty_append]

theorem correspond_frag (r : URole) (t : String) (s : AppState) (a : AttrState)
    (h : correspond s a) :
    correspond (handleFragment r (some t) s) (attrStep a (.frag r t)) := by
  obtain ⟨h1, h2⟩ := h
  by_cases ht : t = ""
  · subst ht
    rw [handleFragment_empty]
    have e2 : attrStep a (.frag r "") = a := by simp [attrStep]
    rw [e2]
    exact ⟨h1, h2⟩
  · cases hp : a.pending with
    | none =>
      have hsp : s.pending = none := by rw [h2, hp]; rfl
      rw [handleFragment_none_pending r t s ht hsp]
      have e2 : attrStep a (.frag r t) = { a with pending := some (r, [t]) } := by
        simp [attrStep, ht, hp]
      rw [e2]
      exact ⟨h1, by simp [joinFrags_singleton]⟩
    | some q =>
      obtain ⟨r', fs⟩ := q
      have hsp : s.pending = some ⟨r', joinFrags fs⟩ := by rw [h2, hp]; rfl
      by_cases hr : r' = r
      · subst hr
        rw [handleFragment_same_role r' t s ⟨r', joinFrags fs⟩ ht hsp rfl]
        have e2 : attrStep a (.frag r' t) = { a with pending := some (r', fs ++ [t]) } := by
          simp [attrStep, ht, hp]
        rw [e2]
        exact ⟨h1, by simp [joinFrags_append, joinFrags_singleton]⟩
      · rw [handleFragment_other_role r t s ⟨r', joinFrags fs⟩ ht hsp (by simpa using hr)]
        have e2 : attrStep a (.frag r t)
            = { groups := a.groups ++ [⟨r', fs, false⟩], pending := some (r, [t]) } := by
          simp [attrStep, ht, hp, hr]
        rw [e2]
        constructor
        · simp only [transcriptOf_append, h1, List.map_append]
          simp [transcriptOf_toRole, Group.render, String.append_empty]
        · simp [joinFrags_singleton]

theorem correspond_tc (s : AppState) (a : AttrState) (h : correspond s a) :
    correspond (handleTurnComplete s) (attrStep a .turnComplete) := by
  obtain ⟨h1, h2⟩ := h
  cases hp : a.pending with
  | none =>
    have hsp : s.pending = none := by rw [h2, hp]; rfl
    have e1 : handleTurnComplete s = s := by simp [handleTurnComplete, hsp]
    have e2 : attrStep a .turnComplete = a := by simp [attrStep, hp]
    rw [e1, e2]
    exact ⟨h1, h2⟩
  | some q =>
    obtain ⟨r', fs⟩ := q
    have hsp : s.pending = some ⟨r', joinFrags fs⟩ := by rw [h2, hp]; rfl
    have e1 : handleTurnComplete s
        = { s with logs := s.logs ++ [(⟨r'.toRole, joinFrags fs⟩ : LogEntry)]
                   pending := none
                   streamingLog := none } := by
      simp [handleTurnComplete, hsp]
    have e2 : attrStep a .turnComplete
        = { groups := a.groups ++ [⟨r', fs, false⟩], pending := none } := by
      simp [attrStep, hp]
    rw [e1, e2]
    constructor
    · simp only [transcriptOf_append, h1, List.map_append]
      simp [transcriptOf_toRole, Group.render, String.append_empty]
    · rfl

theorem correspond_int (s : AppState) (a : AttrState) (h : correspond s a) :
    correspond (handleInterrupted s) (attrStep a .interrupted) := by
  obtain ⟨h1, h2⟩ := h
  cases hp : a.pending with
  | none =>
    have hsp : s.pending = none := by rw [h2, hp]; rfl
    have e1 : handleInterrupted s
        = { s with logs := s.logs ++ [(⟨Role.system, "Interrupted by user."⟩ : LogEntry)]
                   audioSources := []
                   nextStartTime := 0 } := by
      simp [handleInterrupted, hsp]
    have e2 : attrStep a .interrupted = a := by simp [attrStep, hp]
    rw [e1, e2]
    exact ⟨by simp [transcriptOf_append, transcriptOf_system, h1], h2⟩
  | some q =>
    obtain ⟨r', fs⟩ := q
    have hsp : s.pending = some ⟨r', joinFrags fs⟩ := by rw [h2, hp]; rfl
    cases r' with
    | user =>
      have e1 : handleInterrupted s
          = { s with logs := s.logs ++ [(⟨Role.system, "Interrupted by user."⟩ : LogEntry)]
                     audioSources := []
                     nextStartTime := 0 } := by
        simp [handleInterrupted, hsp]
      have e2 : attrStep a .interrupted = a := by simp [attrStep, hp]
      rw [e1, e2]
      exact ⟨by simp [transcriptOf_append, transcriptOf_system, h1], h2⟩
    | model =>
      have e1 : handleInterrupted s
          = { s with logs := s.logs ++ [(⟨Role.system, "Interrupted by user."⟩ : LogEntry)]
                       ++ [(⟨Role.model, joinFrags fs ++ " [Interrupted]"⟩ : LogEntry)]
                     audioSources := []
                     nextStartTime := 0
                     pending := none
                     streamingLog := none } := by
        simp [handleInterrupted, hsp]
      have e2 : attrStep a .interrupted
          = { groups := a.groups ++ [⟨URole.model, fs, true⟩], pending := none } := by
        simp [attrStep, hp]
      rw [e1, e2]
      constructor
      · simp only [transcriptOf_append, h1, List.map_append]
        simp [transcriptOf_system, transcriptOf_toRole, Group.render]
        exact transcriptOf_toRole URole.model (joinFrags fs ++ " [Interrupted]")
      · rfl

theorem run_frag (r : URole) (t : String) (s : AppState) :
    (onmessage (TEvent.frag r t).toMsg 0 s).state = handleFragment r (some t) s := by
  cases r <;> rfl

theorem run_tc (s : AppState) :
    (onmessage TEvent.turnComplete.toMsg 0 s).state = handleTurnComplete s := rfl

theorem run_int (s : AppState) :
    (onmessage TEvent.interrupted.toMsg 0 s).state = handleInterrupted s := rfl

theorem correspond_run (es : List TEvent) :
    ∀ s a, correspond s a → correspond (runEvents es s) (runAttr es a) := by
  induction es with
  | nil => intro s a h; exact h
  | cons e es ih =>
    intro s a h
    have hstep : correspond (onmessage e.toMsg 0 s).state (attrStep a e) := by
      cases e with
      | frag r t => rw [run_frag]; exact correspond_frag r t s a h
      | turnComplete => rw [run_tc]; exact correspond_tc s a h
      | interrupted => rw [run_int]; exact correspond_int s a h
    exact ih _ _ hstep

theorem fragsOf_cons (e : TEvent) (es : List TEvent) :
    fragsOf (e :: es) = fragsOf [e] ++ fragsOf es := by
  cases e with
  | frag r t => by_cases ht : t = "" <;> simp [fragsOf, ht]
  | turnComplete => simp [fragsOf]
  | interrupted => simp [fragsOf]

theorem attrFrags_step (a : AttrState) (e : TEvent) :
    attrFrags (attrStep a e) = attrFrags a ++ fragsOf [e] := by
  cases e with
  | frag r t =>
    by_cases ht : t = ""
    · simp [attrStep, ht, fragsOf, attrFrags]
    · cases hp : a.pending with
      | none => simp [attrStep, ht, hp, fragsOf, attrFrags]
      | some q =>
        obtain ⟨r', fs⟩ := q
        by_cases hr : r' = r <;>
          simp [attrStep, ht, hp, hr, fragsOf, attrFrags, Group.tagged]
  | turnComplete =>
    cases hp : a.pending with
    | none => simp [attrStep, hp, fragsOf, attrFrags]
    | some q =>
      obtain ⟨r', fs⟩ := q
      simp [attrStep, hp, fragsOf, attrFrags, Group.tagged]
  | interrupted =>
    cases hp : a.pending with
    | none => simp [attrStep, hp, fragsOf, attrFrags]
    | some q =>
      obtain ⟨r', fs⟩ := q
      cases r' <;> simp [attrStep, hp, fragsOf, attrFrags, Group.tagged]

theorem attrFrags_run (es : List TEvent) :
    ∀ a, attrFrags (runAttr es a) = attrFrags a ++ fragsOf es := by
  induction es with
  | nil => intro a; simp [runAttr, fragsOf]
  | cons e es ih =>
    intro a
    have hstep : runAttr (e :: es) a = runAttr es (attrStep a e) := rfl
    rw [hstep, ih, attrFrags_step, List.append_assoc, ← fragsOf_cons]

/-- C3 (amended): for every sequence of transcript fragments interleaved
with turn-complete and interruption signals after which nothing is left
pending, the committed transcript is exactly the rendering of the
reference attribution: every non-empty fragment belongs to exactly one
committed entry, in arrival order; each entry's text is the concatenation
of exactly its fragments — except that an entry committed by an
interruption additionally carries the " [Interrupted]" suffix — and no
entry mixes fragments of two roles. -/
theorem transcript_reconciliation (es : List TEvent)
    (hfin : (runEvents es initState).pending = none) :
    transcriptOf (runEvents es initState).logs
      = (runAttr es ⟨[], none⟩).groups.map Group.render ∧
    (runAttr es ⟨[], none⟩).groups.flatMap Group.tagged = fragsOf es ∧
    ∀ g ∈ (runAttr es ⟨[], none⟩).groups, ∀ p ∈ g.tagged, p.1 = g.role := by
  obtain ⟨h1, h2⟩ := correspond_run es initState ⟨[], none⟩ ⟨rfl, rfl⟩
  have hap : (runAttr es ⟨[], none⟩).pending = none := by
    rw [hfin] at h2
    cases h : (runAttr es ⟨[], none⟩).pending with
    | none => rfl
    | some q => rw [h] at h2; cases h2
  have hf := attrFrags_run es ⟨[], none⟩
  refine ⟨h1, ?_, ?_⟩
  · have : attrFrags (runAttr es ⟨[], none⟩)
        = (runAttr es ⟨[], none⟩).groups.flatMap Group.tagged := by
      unfold attrFrags
      rw [hap]
      simp
    rw [← this, hf]
    simp [attrFrags]
  · intro g _ p hp
    obtain ⟨t, _, rfl⟩ := List.mem_map.mp hp
    rfl

/-- Witness for C3 at a five-event conversation ending with nothing
pending. -/
theorem transcript_reconciliation_witness :
    (runEvents [TEvent.frag URole.user "a", TEvent.frag URole.user "b",
        TEvent.turnComplete, TEvent.frag URole.model "c", TEvent.interrupted]
      initState).pending = none ∧
    transcriptOf (runEvents [TEvent.frag URole.user "a", TEvent.frag URole.user "b",
        TEvent.turnComplete, TEvent.frag URole.model "c", TEvent.interrupted]
      initState).logs
      = (runAttr [TEvent.frag URole.user "a", TEvent.frag URole.user "b",
          TEvent.turnComplete, TEvent.frag URole.model "c", TEvent.interrupted]
          ⟨[], none⟩).groups.map Group.render :=
  ⟨by decide,
   (transcript_reconciliation [TEvent.frag URole.user "a", TEvent.frag URole.user "b",
      TEvent.turnComplete, TEvent.frag URole.model "c", TEvent.interrupted]
     (by decide)).1⟩

/-- C3 counterexample to the claim as stated: after the fragment "hi"
from the model and an interruption, the single committed entry's text is
"hi [Interrupted]", which is not the concatenation of the fragments
attributed to it (that concatenation is "hi"). -/
theorem transcript_reconciliation_counterexample :
    transcriptOf (runEvents [TEvent.frag URole.model "hi", TEvent.interrupted]
        initState).logs
      = [(URole.model, "hi [Interrupted]")] ∧
    fragsOf [TEvent.frag URole.model "hi", TEvent.interrupted]
      = [(URole.model, "hi")] ∧
    ("hi [Interrupted]" : String) ≠ "hi" := by
  refine ⟨by decide, by decide, by decide⟩

/-! ## Session lifecycle -/

/-- When the trimmed credential is empty, `connect` only logs the notice
and opens the settings panel. -/
theorem connect_missing_path (s : AppState) (micOk : Bool)
    (h : trimString s.apiKey = "") :
    connect micOk s =
      ({ s with logs := s.logs ++
            [(⟨Role.system, "Credentials missing. Please configure in settings."⟩ : LogEntry)]
                showSettings := true },
       ConnectEffects.nothing) := by
  unfold connect
  rw [h]
  simp

/-- C5: with no (trimmed-empty) credential configured, `connect` only
logs the configuration notice and opens the settings panel: the status is
untouched (never set to Connecting), no audio context is created, no
device is requested and no network attempt is made. -/
theorem connect_missing_credential (s : AppState) (micOk : Bool)
    (h : trimString s.apiKey = "") :
    connect micOk s =
      ({ s with logs := s.logs ++
            [(⟨Role.system, "Credentials missing. Please configure in settings."⟩ : LogEntry)]
                showSettings := true },
       ConnectEffects.nothing) ∧
    (connect micOk s).1.status = s.status ∧
    (connect micOk s).1.inputCtx = s.inputCtx ∧
    (connect micOk s).1.outputCtx = s.outputCtx ∧
    (connect micOk s).1.micStream = s.micStream ∧
    (connect micOk s).2.micRequested = false ∧
    (connect micOk s).2.networkAttempted = false := by
  have heq := connect_missing_path s micOk h
  refine ⟨heq, ?_, ?_, ?_, ?_, ?_, ?_⟩ <;> rw [heq] <;> rfl

/-- Witness for C5 at a whitespace-only stored key. -/
theorem connect_missing_credential_witness :
    trimString ("   " : String) = "" ∧
    (connect true { initState with apiKey := "   " }).1.status
      = ({ initState with apiKey := "   " } : AppState).status ∧
    (connect true { initState with apiKey := "   " }).2.networkAttempted = false :=
  ⟨by decide,
   (connect_missing_credential { initState with apiKey := "   " } true (by decide)).2.1,
   (connect_missing_credential { initState with apiKey := "   " } true (by decide)).2.2.2.2.2.2⟩

theorem trimString_all_ws (t : String) (h : t.data.all Char.isWhitespace = true) :
    trimString t = "" := by
  unfold trimString
  have h1 : t.data.dropWhile Char.isWhitespace = [] := by
    rw [List.dropWhile_eq_nil_iff]
    intro x hx
    exact List.all_eq_true.mp h x hx
  rw [h1]
  rfl

/-- C9: `connect` trims the stored credential before checking it: a key
made only of whitespace takes exactly the credentials-missing path, and
whenever the trimmed key is non-empty the key actually handed to the
client factory is the trimmed one. -/
theorem connect_trims_credential :
    (∀ (s : AppState) (micOk : Bool), s.apiKey.data.all Char.isWhitespace = true →
      connect micOk s =
        ({ s with logs := s.logs ++
              [(⟨Role.system, "Credentials missing. Please configure in settings."⟩ : LogEntry)]
                  showSettings := true },
         ConnectEffects.nothing)) ∧
    (∀ s : AppState, trimString s.apiKey ≠ "" →
      (connect true s).2.keyUsed = some (trimString s.apiKey)) := by
  constructor
  · intro s micOk h
    exact connect_missing_path s micOk (trimString_all_ws _ h)
  · intro s h
    unfold connect
    rw [if_neg h]
    simp

/-- Witness for C9: a whitespace-only key takes the missing path, and a
padded key is used trimmed. -/
theorem connect_trims_credential_witness :
    (" \t".data.all Char.isWhitespace = true) ∧
    (connect true { initState with apiKey := " \t" }).2 = ConnectEffects.nothing ∧
    trimString (" mykey " : String) ≠ "" ∧
    (connect true { initState with apiKey := " mykey " }).2.keyUsed = some "mykey" :=
  ⟨by decide,
   congrArg Prod.snd (connect_trims_credential.1 { initState with apiKey := " \t" } true (by decide)),
   by decide,
   by
     rw [connect_trims_credential.2 { initState with apiKey := " mykey " } (by decide)]
     decide⟩

/-- C6 (amended): a malformed (non-decodable) inbound audio payload
leaves the whole state unchanged — in particular the scheduler's cursor
and in-flight set, the session status and the log — but the handler
neither catches nor logs the failure: the decode exception escapes the
handler, skipping any transcript content in the same message. -/
theorem malformed_audio_amended (bytes : List Nat) (itr otr : Option String)
    (tc intr : Bool) (now : ℚ) (s : AppState)
    (hb : bytes ≠ []) (hlen : bytes.length % 2 ≠ 0) (hctx : s.outputCtx = true) :
    onmessage ⟨some bytes, itr, otr, tc, intr⟩ now s = ⟨s, true⟩ := by
  simp [onmessage, decodePcmDuration, hb, hlen, hctx]

/-- Witness for C6 at a three-byte payload in a message that also carries
a fragment, a turn-complete and an interruption (all skipped). -/
theorem malformed_audio_amended_witness :
    (([0, 0, 0] : List Nat) ≠ []) ∧
    (([0, 0, 0] : List Nat).length % 2 ≠ 0) ∧
    onmessage ⟨some [0, 0, 0], some "x", none, true, true⟩ 5
        { initState with outputCtx := true }
      = ⟨{ initState with outputCtx := true }, true⟩ :=
  ⟨by decide, by decide,
   malformed_audio_amended [0, 0, 0] (some "x") none true true 5
     { initState with outputCtx := true } (by decide) (by decide) rfl⟩

/-- C6 counterexample to the claim as stated: on a malformed payload the
handler throws (it does not contain the failure) and appends no log
entry recording the drop. -/
theorem malformed_audio_counterexample :
    (onmessage ⟨some [0], none, none, false, false⟩ 0
        { initState with outputCtx := true, status := LiveStatus.CONNECTED }).thrown = true ∧
    (onmessage ⟨some [0], none, none, false, false⟩ 0
        { initState with outputCtx := true, status := LiveStatus.CONNECTED }).state.logs
      = ({ initState with outputCtx := true, status := LiveStatus.CONNECTED } : AppState).logs := by
  refine ⟨by decide, by decide⟩

/-- C7 (amended): the remote-error callback only logs the user-visible
notice and sets the status to Error, and the remote-close callback only
logs a notice, sets the status to Disconnected and drops the pending
transcript: neither releases any device, closes any audio context, nor
clears the in-flight segment set. -/
theorem remote_error_close_amended (s : AppState) :
    onerror s = { s with status := LiveStatus.ERROR
                         logs := s.logs ++
                           [(⟨Role.system, "Error occurred. Check console."⟩ : LogEntry)] } ∧
    onclose s = { s with status := LiveStatus.DISCONNECTED
                         logs := s.logs ++
                           [(⟨Role.system, "Connection closed."⟩ : LogEntry)]
                         pending := none
                         streamingLog := none } :=
  ⟨rfl, rfl⟩

/-- C7 counterexample to the claim as stated: after a remote error with a
device held, a context open and a segment in flight, nothing is torn
down. -/
theorem remote_error_counterexample :
    (onerror { initState with status := LiveStatus.CONNECTED, micStream := true, inputCtx := true, outputCtx := true, audioSources := [⟨0, 1⟩] }).micStream = true ∧
    (onerror { initState with status := LiveStatus.CONNECTED, micStream := true, inputCtx := true, outputCtx := true, audioSources := [⟨0, 1⟩] }).inputCtx = true ∧
    (onerror { initState with status := LiveStatus.CONNECTED, micStream := true, inputCtx := true, outputCtx := true, audioSources := [⟨0, 1⟩] }).outputCtx = true ∧
    (onerror { initState with status := LiveStatus.CONNECTED, micStream := true, inputCtx := true, outputCtx := true, audioSources := [⟨0, 1⟩] }).audioSources = [⟨0, 1⟩] ∧
    (onerror { initState with status := LiveStatus.CONNECTED, micStream := true, inputCtx := true, outputCtx := true, audioSources := [⟨0, 1⟩] }).status = LiveStatus.ERROR ∧
    (onclose { initState with status := LiveStatus.CONNECTED, micStream := true, inputCtx := true, outputCtx := true, audioSources := [⟨0, 1⟩] }).micStream = true ∧
    (onclose { initState with status := LiveStatus.CONNECTED, micStream := true, inputCtx := true, outputCtx := true, audioSources := [⟨0, 1⟩] }).inputCtx = true := by
  refine ⟨rfl, rfl, rfl, rfl, rfl, rfl, rfl⟩

/-- C8: `cleanup` is idempotent: the first call nulls every device,
context and processor reference, so a second call (equivalently, a call
while already disconnected) performs not a single release action, and the
resulting state again has cursor 0, an empty in-flight set, an idle
reconciler and Disconnected status — the same as after the first call. -/
theorem cleanup_idempotent (s : AppState) :
    ((cleanup s).1.processor = false ∧ (cleanup s).1.audioSource = false ∧
     (cleanup s).1.inputCtx = false ∧ (cleanup s).1.outputCtx = false ∧
     (cleanup s).1.micStream = false ∧ (cleanup s).1.videoStream = false ∧
     (cleanup s).1.frameInterval = false ∧ (cleanup s).1.sessionOpen = false) ∧
    (cleanup (cleanup s).1).2 = CleanupEffects.nothing ∧
    ((cleanup s).1.nextStartTime = 0 ∧ (cleanup s).1.audioSources = [] ∧
     (cleanup s).1.pending = none ∧ (cleanup s).1.status = LiveStatus.DISCONNECTED) ∧
    ((cleanup (cleanup s).1).1.nextStartTime = 0 ∧
     (cleanup (cleanup s).1).1.audioSources = [] ∧
     (cleanup (cleanup s).1).1.pending = none ∧
     (cleanup (cleanup s).1).1.status = LiveStatus.DISCONNECTED) :=
  ⟨⟨rfl, rfl, rfl, rfl, rfl, rfl, rfl, rfl⟩, rfl,
   ⟨rfl, rfl, rfl, rfl⟩, ⟨rfl, rfl, rfl, rfl⟩⟩

/-! ## Client cache -/

theorem getGenAIClient_truthy (k : String) (hk : k ≠ "") (env : Option String)
    (c : ClientCache) :
    getGenAIClient (some k) env c
      = (match c.aiClient with
         | some cl =>
           if c.currentApiKey ≠ some k
           then (Except.ok ⟨k, c.nextId⟩, ⟨some ⟨k, c.nextId⟩, some k, c.nextId + 1⟩)
           else (Except.ok cl, c)
         | none => (Except.ok ⟨k, c.nextId⟩, ⟨some ⟨k, c.nextId⟩, some k, c.nextId + 1⟩)) := by
  unfold getGenAIClient
  simp [jsTruthy, hk]

theorem getGenAIClient_truthy_ok (k : String) (hk : k ≠ "") (env : Option String)
    (c : ClientCache) :
    ∃ cl c', getGenAIClient (some k) env c = (Except.ok cl, c') := by
  rw [getGenAIClient_truthy k hk env c]
  cases c.aiClient with
  | none => exact ⟨_, _, rfl⟩
  | some cl =>
    by_cases hkey : c.currentApiKey ≠ some k
    · exact ⟨⟨k, c.nextId⟩, ⟨some ⟨k, c.nextId⟩, some k, c.nextId + 1⟩,
        by simp only [if_pos hkey]⟩
    · exact ⟨cl, c, by simp only [if_neg hkey]⟩

theorem getGenAIClient_fallback (a env : Option String) (c : ClientCache)
    (ha : jsTruthy a = false) :
    getGenAIClient a env c = getGenAIClient env env c := by
  unfold getGenAIClient
  simp [ha]

theorem getGenAIClient_nokey (a env : Option String) (c : ClientCache)
    (ha : jsTruthy a = false) (he : jsTruthy env = false) :
    getGenAIClient a env c = (Except.error credErrorMsg, c) := by
  unfold getGenAIClient
  rw [ha]
  cases env with
  | none => simp
  | some t => simp [he]

theorem jsTruthy_true (o : Option String) (h : jsTruthy o = true) :
    ∃ t, o = some t ∧ t ≠ "" := by
  cases o with
  | none => simp [jsTruthy] at h
  | some t =>
    refine ⟨t, rfl, ?_⟩
    simpa [jsTruthy] using h

/-- C10: the client factory caches across calls.  Two consecutive calls
with the same non-empty key return the identical instance and leave the
cache untouched; a call whose key differs from the cached one constructs
a fresh client and updates the cached key; a call with no key argument
behaves exactly as one receiving the environment key; and the call throws
precisely when neither the argument nor the environment key is set (or
either is empty), leaving the cache unchanged in that case. -/
theorem getGenAIClient_cache :
    (∀ (env : Option String) (c : ClientCache) (k : String), k ≠ "" →
      getGenAIClient (some k) env ((getGenAIClient (some k) env c).2)
        = ((getGenAIClient (some k) env c).1, (getGenAIClient (some k) env c).2)) ∧
    (∀ (env : Option String) (c : ClientCache) (k' : String), k' ≠ "" →
      c.currentApiKey ≠ some k' →
      getGenAIClient (some k') env c
        = (Except.ok ⟨k', c.nextId⟩, ⟨some ⟨k', c.nextId⟩, some k', c.nextId + 1⟩)) ∧
    (∀ (env : Option String) (c : ClientCache),
      getGenAIClient none env c = getGenAIClient env env c) ∧
    (∀ (a env : Option String) (c : ClientCache),
      ((getGenAIClient a env c).1 = Except.error credErrorMsg ↔
        jsTruthy a = false ∧ jsTruthy env = false) ∧
      (jsTruthy a = false → jsTruthy env = false →
        getGenAIClient a env c = (Except.error credErrorMsg, c))) := by
  refine ⟨?_, ?_, ?_, ?_⟩
  · intro env c k hk
    simp only [getGenAIClient_truthy k hk]
    cases hcl : c.aiClient with
    | none => simp
    | some cl =>
      by_cases hkey : c.currentApiKey = some k
      · simp [hcl, hkey]
      · simp [hcl, hkey]
  · intro env c k' hk' hne
    rw [getGenAIClient_truthy k' hk' env c]
    cases hcl : c.aiClient with
    | none => rfl
    | some cl => simp only [if_pos hne]
  · intro env c
    exact getGenAIClient_fallback none env c rfl
  · intro a env c
    refine ⟨⟨?_, ?_⟩, fun ha he => getGenAIClient_nokey a env c ha he⟩
    · intro herr
      by_cases ha : jsTruthy a = true
      · obtain ⟨t, rfl, ht⟩ := jsTruthy_true a ha
        obtain ⟨cl, c', heq⟩ := getGenAIClient_truthy_ok t ht env c
        rw [heq] at herr
        simp at herr
      · have ha' : jsTruthy a = false := by simpa using ha
        by_cases he : jsTruthy env = true
        · obtain ⟨t', rfl, ht'⟩ := jsTruthy_true env he
          rw [getGenAIClient_fallback a (some t') c ha'] at herr
          obtain ⟨cl, c', heq⟩ := getGenAIClient_truthy_ok t' ht' (some t') c
          rw [heq] at herr
          simp at herr
        · exact ⟨ha', by simpa using he⟩
    · rintro ⟨ha, he⟩
      rw [getGenAIClient_nokey a env c ha he]

/-- Witness for C10: a repeated call with key "alpha" returns the cached
instance, a call with "beta" against an "alpha" cache re-initializes, and
a call with neither key errors leaving the cache unchanged. -/
theorem getGenAIClient_cache_witness :
    (("alpha" : String) ≠ "") ∧
    getGenAIClient (some "alpha") none
        ((getGenAIClient (some "alpha") none ⟨none, none, 0⟩).2)
      = ((getGenAIClient (some "alpha") none ⟨none, none, 0⟩).1,
         (getGenAIClient (some "alpha") none ⟨none, none, 0⟩).2) ∧
    getGenAIClient (some "beta") none ⟨some ⟨"alpha", 0⟩, some "alpha", 1⟩
      = (Except.ok ⟨"beta", 1⟩, ⟨some ⟨"beta", 1⟩, some "beta", 2⟩) ∧
    getGenAIClient none none ⟨none, none, 0⟩
      = (Except.error credErrorMsg, ⟨none, none, 0⟩) :=
  ⟨by decide,
   getGenAIClient_cache.1 none ⟨none, none, 0⟩ "alpha" (by decide),
   getGenAIClient_cache.2.1 none ⟨some ⟨"alpha", 0⟩, some "alpha", 1⟩ "beta"
     (by decide) (by decide),
   (getGenAIClient_cache.2.2.2 none none ⟨none, none, 0⟩).2 rfl rfl⟩

end GeminiLive
